import Mathlib

/-!
Verification of the JUnit callback plugin
(`lib/ansible/plugins/callback/junit.py`).

The plugin aggregates task/host events into `TaskData` / `HostData`
records and renders one JUnit test case per (task, host) pair.

Free text coming from the engine (task names, paths, messages, result
payload values) is modelled as a list of Unicode code points (`Text`),
because a Python `str` may carry surrogate escapes produced by
`surrogateescape` decoding, which a Lean `String` cannot represent.
Internal enumeration-like strings (statuses, uuids used purely as keys,
configuration values) are modelled as Lean `String`.
Timestamps (`time.time()`) are modelled as `Nat` values supplied
explicitly at each event.
-/

namespace JUnit

/-- Engine-supplied text: a list of Unicode code points (surrogates allowed). -/
abbrev Text : Type := List Nat

/-- Embed a Lean string literal as `Text`. -/
def t (s : String) : Text := s.data.map Char.toNat

/-- The newline character, used by the include-payload concatenation. -/
def nl : Text := [10]

/-- ASCII whitespace recognised by `str.strip()` (the callers only strip
ASCII program text, so the Unicode-space cases of Python are not needed). -/
def isSpaceCode (c : Nat) : Bool :=
  c == 32 || c == 9 || c == 10 || c == 13 || c == 11 || c == 12

/-- Python `str.strip()`: drop whitespace from both ends. -/
def pyStrip (s : Text) : Text :=
  ((s.dropWhile isSpaceCode).reverse.dropWhile isSpaceCode).reverse

/-- Python `str.split('\n')`: split on newline, keeping empty pieces. -/
def splitNl : Text → List Text
  | [] => [[]]
  | c :: rest =>
    if c == 10 then [] :: splitNl rest
    else
      match splitNl rest with
      | [] => [[c]]
      | x :: xs => (c :: x) :: xs

/-- Python `s.split('\n')[-1]` (the split list is never empty). -/
def lastNlLine (s : Text) : Text := (splitNl s).getLast?.getD []

/-- Does `pat` occur at the head of `s`? -/
def textStartsWith : Text → Text → Bool
  | [], _ => true
  | _ :: _, [] => false
  | p :: ps, c :: cs => p == c && textStartsWith ps cs

/-- Python `pat in s`: contiguous substring test. -/
def textHasSub (pat : Text) : Text → Bool
  | [] => pat.isEmpty
  | c :: cs => textStartsWith pat (c :: cs) || textHasSub pat cs

/-- ASCII digit, as matched by the regex class `[0-9]`. -/
def isDigitCode (c : Nat) : Bool := 48 ≤ c && c ≤ 57

/-- `re.sub('\.yml:[0-9]+$', '', path)`: the pattern is anchored at the end
of the string, so it matches at most once; when `path` ends with `.yml:`
followed by one or more digits, that whole suffix is removed. -/
def stripYmlLineSuffix (path : Text) : Text :=
  let rcs := path.reverse
  let ds := rcs.takeWhile isDigitCode
  let rest := rcs.dropWhile isDigitCode
  match ds, rest with
  | _ :: _, 58 :: 108 :: 109 :: 121 :: 46 :: base => base.reverse
  | _, _ => path

/-- A value of the loosely-typed result payload dictionary. -/
inductive JValue where
  | s (v : Text)
  | n (v : Int)
  | b (v : Bool)
  deriving DecidableEq, Repr

/-- The result payload: the `result._result` dictionary, as an
association list (Python dict keys are unique; first match wins). -/
abbrev ResDict : Type := List (String × JValue)

/-- Python `res.get(key, default)`. -/
def resGet (res : ResDict) (key : String) (default : JValue) : JValue :=
  match res.find? (fun p => p.1 == key) with
  | some p => p.2
  | none => default

/-- Python `key in res`. -/
def resHas (res : ResDict) (key : String) : Bool :=
  res.any (fun p => p.1 == key)

/-- Python truthiness of a payload value (`if res.get('changed', False)`). -/
def jTruthy : JValue → Bool
  | .s v => !v.isEmpty
  | .n v => v != 0
  | .b v => v

/-- Decimal rendering of an integer, as Python `str(int)` prints it. -/
def intText (i : Int) : Text := t (toString i)

/-- Python `'%s' % value` for a payload value. -/
def jFormat : JValue → Text
  | .s v => v
  | .n i => intText i
  | .b true => t "True"
  | .b false => t "False"

/-- The unicode replacement character U+FFFD. -/
def replacementChar : Nat := 0xFFFD

/-- Is `c` in the surrogate range (the code points produced by
`surrogateescape` decoding of invalid byte sequences)? -/
def isSurrogate (c : Nat) : Bool := 0xD800 ≤ c && c ≤ 0xDFFF

/-- One character of `_cleanse_string`: a surrogate escape round-trips
through `to_bytes(..., errors='surrogateescape')` into the original
invalid byte, which `to_text(..., errors='replace')` turns into U+FFFD;
every other character is preserved by the UTF-8 round trip. -/
def cleanseChar (c : Nat) : Nat := if isSurrogate c then replacementChar else c

/-- `_cleanse_string`: convert surrogate escapes to the unicode
replacement character to avoid XML encoding errors. -/
def cleanse_string (value : Text) : Text := value.map cleanseChar

/-- `True` iff the text carries no surrogate escapes (it is safe to encode). -/
def sanitizedText (s : Text) : Bool := s.all (fun c => !isSurrogate c)

/-- One rendered key-value pair of the result dump. -/
def dumpPair (p : String × JValue) : Text :=
  t "\x22" ++ t p.1 ++ t "\x22: " ++ jFormat p.2

/-- Modelled from the spec: `_dump_results` lives on the callback base
class (outside this file); the spec describes its output only as "a
serialized ... dump of the result payload".  Modelled as a JSON-style
rendering of the payload's key-value pairs. -/
def dump_results (res : ResDict) : Text :=
  t "\x7b" ++ (List.intercalate (t ", ") (res.map dumpPair)) ++ t "\x7d"

/-- The stored `result` attribute of a `HostData`: either a task result
object carrying a `_result` dictionary, or include text (`IncludedFile`
rendering, or the string produced by include-payload concatenation). -/
inductive HResult where
  | taskRes (res : ResDict)
  | includeText (s : Text)
  deriving DecidableEq, Repr

/-- Python `'%s' % result`.  A `TaskResult` object renders as an opaque
`repr` (never inspected by the plugin); include text renders as itself. -/
def HResult.render : HResult → Text
  | .taskRes _ => t "<TaskResult>"
  | .includeText s => s

/-- The `_result` dictionary of a stored result.  The plugin only reads it
on non-included records, which always hold a task result. -/
def HResult.resDict : HResult → ResDict
  | .taskRes res => res
  | .includeText _ => []

/-- `HostData`: data about an individual host (`finish` is the
`time.time()` value at creation). -/
structure HostData where
  uuid : String
  name : Text
  status : String
  result : HResult
  finish : Nat
  deriving DecidableEq, Repr

/-- `TaskData`: data about an individual task (`start` is the
`time.time()` value at creation; `host_data` is the `OrderedDict`
keyed by host uuid, kept in insertion order). -/
structure TaskData where
  uuid : String
  name : Text
  path : Text
  play : Text
  start : Nat
  host_data : List HostData
  deriving DecidableEq, Repr

/-- `OrderedDict` value assignment at an existing key: the value is
replaced in place (keys are unique, so replacing the first match is
exact). -/
def replaceHost : List HostData → String → HostData → List HostData
  | [], _, _ => []
  | x :: xs, u, h => if x.uuid == u then h :: xs else x :: replaceHost xs u h

/-- `TaskData.add_host`: merge a second `included` outcome by newline
concatenation, reject any other duplicate, append fresh hosts. -/
def TaskData.add_host (td : TaskData) (host : HostData) : Except Text TaskData :=
  match td.host_data.find? (fun h => h.uuid == host.uuid) with
  | some prev =>
    if host.status == "included" then
      let merged : HostData :=
        { host with result := .includeText (prev.result.render ++ nl ++ host.result.render) }
      .ok { td with host_data := replaceHost td.host_data host.uuid merged }
    else
      .error (td.path ++ t ": " ++ td.play ++ t ": " ++ td.name ++
              t ": duplicate host callback: " ++ host.name)
  | none => .ok { td with host_data := td.host_data ++ [host] }

/-- The aggregator state of `CallbackModule`: the lowercased environment
options `JUNIT_TASK_CLASS` / `JUNIT_FAIL_ON_CHANGE`, the current play
name, and the `OrderedDict` of task uuid → `TaskData` kept in insertion
order.  (`_play_name` starts as Python `None`, which renders as the text
`None` when interpolated into an entry name.) -/
structure CallbackState where
  task_class : String
  fail_on_change : String
  play_name : Text
  task_data : List TaskData
  deriving DecidableEq, Repr

/-- The uuids of all known tasks, in insertion order. -/
def taskUuids (st : CallbackState) : List String :=
  st.task_data.map (fun td => td.uuid)

/-- A task-start event: the fields of the `task` object read by
`_start_task` (`_uuid`, `get_name()`, `get_path()`, `no_log`, `args`). -/
structure Task where
  uuid : String
  name : Text
  path : Text
  no_log : Bool
  args : List (Text × Text)
  deriving DecidableEq, Repr

/-- The display name built by `_start_task`: the stripped task name,
augmented with `key=value` argument text unless `no_log` is set. -/
def taskDisplayName (task : Task) : Text :=
  let name := pyStrip task.name
  if !task.no_log then
    let args := List.intercalate (t ", ") (task.args.map (fun a => a.1 ++ t "=" ++ a.2))
    if !args.isEmpty then name ++ t " " ++ args else name
  else name

/-- `_start_task`: record the start of a task; a second call with a known
uuid returns without touching the store. -/
def start_task (st : CallbackState) (now : Nat) (task : Task) : CallbackState :=
  if st.task_data.any (fun td => td.uuid == task.uuid) then st
  else
    { st with task_data := st.task_data ++
        [{ uuid := task.uuid, name := taskDisplayName task, path := task.path,
           play := st.play_name, start := now, host_data := [] }] }

/-- An outcome event: the fields of the `result` object read by
`_finish_task` (`_task._uuid`, the optional `_host`, and the payload).
For an include event there is no `_host` attribute and the payload is
the `IncludedFile` rendering; for host outcomes the payload carries the
`_result` dictionary. -/
structure ResultEvent where
  task_uuid : String
  host : Option (String × Text)
  payload : HResult
  deriving DecidableEq, Repr

/-- The host uuid recorded for an outcome (`'include'` when the result
has no `_host` attribute). -/
def eventHostUuid (r : ResultEvent) : String :=
  match r.host with
  | some h => h.1
  | none => "include"

/-- The host name recorded for an outcome. -/
def eventHostName (r : ResultEvent) : Text :=
  match r.host with
  | some h => h.2
  | none => t "include"

/-- `OrderedDict` value assignment for the task store (same in-place
replacement as `replaceHost`). -/
def updateTask : List TaskData → String → TaskData → List TaskData
  | [], _, _ => []
  | x :: xs, u, td => if x.uuid == u then td :: xs else x :: updateTask xs u td

/-- `_finish_task`: record the results of a task for a single host.  The
lookup `self._task_data[task_uuid]` raises `KeyError` on an unknown task;
the status is reclassified by the fail-on-change policy and the
`EXPECTED FAILURE` marker before the `HostData` is stored. -/
def finish_task (st : CallbackState) (now : Nat) (status : String)
    (result : ResultEvent) : Except Text CallbackState :=
  let host_uuid := eventHostUuid result
  let host_name := eventHostName result
  match st.task_data.find? (fun td => td.uuid == result.task_uuid) with
  | none => .error (t "KeyError: " ++ t result.task_uuid)
  | some task_data =>
    let status1 :=
      if st.fail_on_change == "true" && status == "ok" &&
         jTruthy (resGet result.payload.resDict "changed" (.b false)) then "failed"
      else status
    let status2 :=
      if status1 == "failed" && textHasSub (t "EXPECTED FAILURE") task_data.name then "ok"
      else status1
    match task_data.add_host
        { uuid := host_uuid, name := host_name, status := status2,
          result := result.payload, finish := now } with
    | .error e => .error e
    | .ok td => .ok { st with task_data := updateTask st.task_data result.task_uuid td }

/-- A JUnit test case as assembled by the plugin: `TestCase(name,
classname, time, stdout)` plus at most one of the `add_error_info` /
`add_failure_info` / `add_skipped_info` children. -/
structure TestCase where
  name : Text
  classname : Text
  time : Int
  stdout : Option Text
  failure : Option (Text × Text)
  error : Option (Text × Text)
  skipped : Option Text
  deriving DecidableEq, Repr

/-- `_build_test_case`: build a `TestCase` from the given `TaskData` and
`HostData`. -/
def build_test_case (st : CallbackState) (task_data : TaskData)
    (host_data : HostData) : TestCase :=
  let name := t "[" ++ host_data.name ++ t "] " ++ task_data.play ++ t ": " ++ task_data.name
  let duration : Int := (host_data.finish : Int) - (task_data.start : Int)
  let junit_classname :=
    if st.task_class == "true" then stripYmlLineSuffix task_data.path
    else task_data.path
  if host_data.status == "included" then
    { name := name, classname := junit_classname, time := duration,
      stdout := some host_data.result.render,
      failure := none, error := none, skipped := none }
  else
    let res := host_data.result.resDict
    let rc := resGet res "rc" (.n 0)
    let dump := cleanse_string (dump_results res)
    if host_data.status == "ok" then
      { name := name, classname := junit_classname, time := duration,
        stdout := some dump, failure := none, error := none, skipped := none }
    else
      let base : TestCase :=
        { name := name, classname := junit_classname, time := duration,
          stdout := none, failure := none, error := none, skipped := none }
      if host_data.status == "failed" then
        if resHas res "exception" then
          let exc := jFormat (resGet res "exception" (.n 0))
          { base with error := some (lastNlLine (pyStrip exc), exc) }
        else if resHas res "msg" then
          { base with failure := some (jFormat (resGet res "msg" (.n 0)), dump) }
        else
          { base with failure := some (t "rc=" ++ jFormat rc, dump) }
      else if host_data.status == "skipped" then
        if resHas res "skip_reason" then
          { base with skipped := some (jFormat (resGet res "skip_reason" (.n 0))) }
        else
          { base with skipped := some (t "skipped") }
      else base

/-- `_generate_report`: one test case per `HostData`, tasks in creation
order, hosts in creation order within each task.  (The surrounding
`TestSuite` assembly and file write are the out-of-scope serializer.) -/
def generate_report (st : CallbackState) : List TestCase :=
  st.task_data.flatMap (fun td => td.host_data.map (fun hd => build_test_case st td hd))

/-- The (task uuid, host uuid) pairs underlying the report entries, in
report order. -/
def reportPairs (st : CallbackState) : List (String × String) :=
  st.task_data.flatMap (fun td => td.host_data.map (fun hd => (td.uuid, hd.uuid)))

/-- One lifecycle event delivered by the engine. -/
inductive Event where
  | playStart (name : Text)
  | taskStart (now : Nat) (task : Task)
  | outcome (now : Nat) (status : String) (result : ResultEvent)
  deriving Repr

/-- Dispatch one event (`v2_playbook_on_play_start`, the task-start
entry points, and the outcome entry points respectively). -/
def step (st : CallbackState) : Event → Except Text CallbackState
  | .playStart name => .ok { st with play_name := name }
  | .taskStart now task => .ok (start_task st now task)
  | .outcome now status result => finish_task st now status result

/-- Process a sequence of events; a raised fault aborts the run. -/
def run (st : CallbackState) : List Event → Except Text CallbackState
  | [] => .ok st
  | e :: es =>
    match step st e with
    | .error msg => .error msg
    | .ok st1 => run st1 es

/-- `v2_runner_on_failed`: an ignored error is reported as `ok`. -/
def v2_runner_on_failed (st : CallbackState) (now : Nat) (result : ResultEvent)
    (ignore_errors : Bool) : Except Text CallbackState :=
  if ignore_errors then finish_task st now "ok" result
  else finish_task st now "failed" result

/-! ## Helper lemmas -/

theorem takeWhile_append_cons (p : Nat → Bool) (l : List Nat) (c : Nat) (r : List Nat)
    (hl : ∀ a ∈ l, p a = true) (hc : p c = false) :
    (l ++ c :: r).takeWhile p = l := by
  induction l with
  | nil => simp [List.takeWhile_cons, hc]
  | cons x xs ih =>
    have hx : p x = true := hl x (by simp)
    simp only [List.cons_append, List.takeWhile_cons, hx, if_pos]
    rw [ih (fun a ha => hl a (by simp [ha]))]

theorem dropWhile_append_cons (p : Nat → Bool) (l : List Nat) (c : Nat) (r : List Nat)
    (hl : ∀ a ∈ l, p a = true) (hc : p c = false) :
    (l ++ c :: r).dropWhile p = c :: r := by
  induction l with
  | nil => simp [List.dropWhile_cons, hc]
  | cons x xs ih =>
    have hx : p x = true := hl x (by simp)
    simp only [List.cons_append, List.dropWhile_cons, hx, if_pos]
    exact ih (fun a ha => hl a (by simp [ha]))

/-- Every branch of `_build_test_case` sets the classname computed from
the task path and the `JUNIT_TASK_CLASS` option. -/
theorem build_test_case_classname (st : CallbackState) (td : TaskData) (hd : HostData) :
    (build_test_case st td hd).classname =
      if st.task_class == "true" then stripYmlLineSuffix td.path else td.path := by
  unfold build_test_case
  dsimp only
  repeat' split
  all_goals rfl

/-- Every branch of `_build_test_case` sets the duration
`host_data.finish - task_data.start`. -/
theorem build_test_case_time (st : CallbackState) (td : TaskData) (hd : HostData) :
    (build_test_case st td hd).time = (hd.finish : Int) - (td.start : Int) := by
  unfold build_test_case
  dsimp only
  repeat' split
  all_goals rfl

/-- On a path of the form `<base>.yml:<digits>` the regex strips the whole
`.yml:<digits>` suffix, leaving only `<base>`. -/
theorem stripYmlLineSuffix_eq (base ds : Text) (hne : ds ≠ [])
    (hdig : ∀ a ∈ ds, isDigitCode a = true) :
    stripYmlLineSuffix (base ++ t ".yml:" ++ ds) = base := by
  unfold stripYmlLineSuffix
  have hrev : (base ++ t ".yml:" ++ ds).reverse =
      ds.reverse ++ 58 :: 108 :: 109 :: 121 :: 46 :: base.reverse := by
    simp [t, List.reverse_append]
  have hdig' : ∀ a ∈ ds.reverse, isDigitCode a = true := by
    intro a ha
    exact hdig a (List.mem_reverse.mp ha)
  have h58 : isDigitCode 58 = false := by decide
  have htw := takeWhile_append_cons isDigitCode ds.reverse 58
    (108 :: 109 :: 121 :: 46 :: base.reverse) hdig' h58
  have hdw := dropWhile_append_cons isDigitCode ds.reverse 58
    (108 :: 109 :: 121 :: 46 :: base.reverse) hdig' h58
  rw [hrev]
  dsimp only
  rw [htw, hdw]
  have hex : ∃ d rest, ds.reverse = d :: rest := by
    cases hds : ds.reverse with
    | nil => exact absurd (by simpa using congrArg List.reverse hds) hne
    | cons d rest => exact ⟨d, rest, rfl⟩
  obtain ⟨d, rest, hds⟩ := hex
  rw [hds]
  simp

/-! ## Sample data for concrete counterexamples and witnesses -/

/-- A state with the group-by-file option (`JUNIT_TASK_CLASS`) enabled. -/
def cfgGrouped : CallbackState :=
  { task_class := "true", fail_on_change := "false", play_name := t "Setup", task_data := [] }

/-- A state with the group-by-file option disabled. -/
def cfgPlain : CallbackState :=
  { task_class := "false", fail_on_change := "false", play_name := t "Setup", task_data := [] }

/-- A task record whose path carries a `.yml:<digits>` suffix. -/
def tdFoo : TaskData :=
  { uuid := "T1", name := t "Install package", path := t "foo.yml:12",
    play := t "Setup", start := 5, host_data := [] }

/-- A host record with a plain `ok` outcome. -/
def hdOk : HostData :=
  { uuid := "H1", name := t "web1", status := "ok",
    result := .taskRes [("changed", .b false)], finish := 9 }

/-! ## C1 -/

/-- C1 (counterexample): with the group-by-file policy enabled the report
entry for path `foo.yml:12` has classname `foo`, not `foo.yml` — the
regex `\.yml:[0-9]+$` removes the `.yml` extension along with the line
number.  The disabled half of the claim does hold. -/
theorem classname_grouping_counterexample :
    (build_test_case cfgGrouped tdFoo hdOk).classname ≠ t "foo.yml" ∧
    (build_test_case cfgGrouped tdFoo hdOk).classname = t "foo" ∧
    (build_test_case cfgPlain tdFoo hdOk).classname = t "foo.yml:12" := by
  refine ⟨?_, ?_, ?_⟩ <;> decide

/-- C1 (amended): for every task record whose path ends in a
`.yml:<digits>` suffix, building its report entry with the group-by-file
policy enabled yields as classname the path with the whole
`.yml:<digits>` suffix stripped (the `.yml` extension is removed as
well), and with the policy disabled yields the path unchanged. -/
theorem classname_grouping_amended (st : CallbackState) (td : TaskData) (hd : HostData)
    (base ds : Text) (hpath : td.path = base ++ t ".yml:" ++ ds) (hne : ds ≠ [])
    (hdig : ∀ a ∈ ds, isDigitCode a = true) :
    (st.task_class = "true" → (build_test_case st td hd).classname = base) ∧
    (st.task_class ≠ "true" → (build_test_case st td hd).classname = td.path) := by
  constructor
  · intro h
    rw [build_test_case_classname, hpath]
    simp only [h, beq_self_eq_true, if_true]
    exact stripYmlLineSuffix_eq base ds hne hdig
  · intro h
    rw [build_test_case_classname]
    simp [h]

/-- C1 (witness): the amended statement at the concrete path
`foo.yml:12`, in both configurations. -/
theorem classname_grouping_amended_witness :
    (build_test_case cfgGrouped tdFoo hdOk).classname = t "foo" ∧
    (build_test_case cfgPlain tdFoo hdOk).classname = tdFoo.path :=
  ⟨(classname_grouping_amended cfgGrouped tdFoo hdOk (t "foo") (t "12")
      (by decide) (by decide) (by decide)).1 rfl,
   (classname_grouping_amended cfgPlain tdFoo hdOk (t "foo") (t "12")
      (by decide) (by decide) (by decide)).2 (by decide)⟩

/-! ## C2 -/

/-- The substitution pass always yields text free of surrogate escapes. -/
theorem sanitized_cleanse (s : Text) : sanitizedText (cleanse_string s) = true := by
  unfold sanitizedText cleanse_string
  rw [List.all_map]
  apply List.all_eq_true.mpr
  intro c hc
  simp only [Function.comp]
  unfold cleanseChar
  split
  · decide
  · rename_i hns
    simp [Bool.not_eq_true] at hns
    simp [hns]

/-- A host record that failed with exception text carrying a surrogate
escape (code point `0xDC80`, as produced by `surrogateescape` decoding
of an invalid byte). -/
def hdFailedExc : HostData :=
  { uuid := "H1", name := t "web1", status := "failed",
    result := .taskRes [("exception", .s (0xDC80 :: t "boom"))], finish := 9 }

/-- C2 (counterexample): the exception text of a failed entry is placed
into the report entry verbatim, without the encoding-substitution pass —
the error output still carries the surrogate escape `0xDC80`. -/
theorem sanitization_counterexample :
    (build_test_case cfgPlain tdFoo hdFailedExc).error =
      some (0xDC80 :: t "boom", 0xDC80 :: t "boom") ∧
    sanitizedText (0xDC80 :: t "boom") = false := by
  refine ⟨?_, ?_⟩ <;> decide

/-- C2 (amended): only the serialized result dump passes through the
encoding-substitution pass before serialization (so the informational
output of an `ok` entry and the detail text of a message failure are
always sanitized), while failure messages, skip messages and exception
text are placed into the report entry verbatim, without the
substitution pass. -/
theorem sanitization_amended (st : CallbackState) (td : TaskData) (hd : HostData) :
    (hd.status = "ok" →
      (build_test_case st td hd).stdout =
        some (cleanse_string (dump_results hd.result.resDict)) ∧
      sanitizedText (cleanse_string (dump_results hd.result.resDict)) = true) ∧
    (hd.status = "failed" → resHas hd.result.resDict "exception" = false →
      resHas hd.result.resDict "msg" = true →
      (build_test_case st td hd).failure =
        some (jFormat (resGet hd.result.resDict "msg" (.n 0)),
              cleanse_string (dump_results hd.result.resDict)) ∧
      sanitizedText (cleanse_string (dump_results hd.result.resDict)) = true) ∧
    (hd.status = "failed" → resHas hd.result.resDict "exception" = true →
      (build_test_case st td hd).error =
        some (lastNlLine (pyStrip (jFormat (resGet hd.result.resDict "exception" (.n 0)))),
              jFormat (resGet hd.result.resDict "exception" (.n 0)))) ∧
    (hd.status = "skipped" → resHas hd.result.resDict "skip_reason" = true →
      (build_test_case st td hd).skipped =
        some (jFormat (resGet hd.result.resDict "skip_reason" (.n 0)))) := by
  refine ⟨?_, ?_, ?_, ?_⟩
  · intro h
    simp [build_test_case, h, sanitized_cleanse]
  · intro h hexc hmsg
    simp [build_test_case, h, hexc, hmsg, sanitized_cleanse]
  · intro h hexc
    simp [build_test_case, h, hexc]
  · intro h hsr
    simp [build_test_case, h, hsr]

/-- A host record skipped with a skip reason carrying a surrogate
escape. -/
def hdSkipped : HostData :=
  { uuid := "H1", name := t "web1", status := "skipped",
    result := .taskRes [("skip_reason", .s (0xDC81 :: t "conditional"))], finish := 9 }

/-- C2 (witness): the amended statement at concrete records — the
sanitized dump of an `ok` entry, the verbatim exception text of a
failed entry, and the verbatim skip reason of a skipped entry. -/
theorem sanitization_amended_witness :
    ((build_test_case cfgPlain tdFoo hdOk).stdout =
        some (cleanse_string (dump_results hdOk.result.resDict)) ∧
      sanitizedText (cleanse_string (dump_results hdOk.result.resDict)) = true) ∧
    (build_test_case cfgPlain tdFoo hdFailedExc).error =
      some (lastNlLine (pyStrip (jFormat (resGet hdFailedExc.result.resDict "exception" (.n 0)))),
            jFormat (resGet hdFailedExc.result.resDict "exception" (.n 0))) ∧
    (build_test_case cfgPlain tdFoo hdSkipped).skipped =
      some (jFormat (resGet hdSkipped.result.resDict "skip_reason" (.n 0))) :=
  ⟨(sanitization_amended cfgPlain tdFoo hdOk).1 rfl,
   (sanitization_amended cfgPlain tdFoo hdFailedExc).2.2.1 rfl (by decide),
   (sanitization_amended cfgPlain tdFoo hdSkipped).2.2.2 rfl (by decide)⟩

/-! ## C3 -/

/-- A state with the change-as-failure option (`JUNIT_FAIL_ON_CHANGE`)
enabled. -/
def cfgFailChange : CallbackState :=
  { task_class := "false", fail_on_change := "true", play_name := t "Setup", task_data := [] }

/-- A task-start event for task `T1`. -/
def taskDeploy : Task :=
  { uuid := "T1", name := t "Deploy", path := t "site.yml:7", no_log := true, args := [] }

/-- The `TaskData` record created for `taskDeploy` at time 5. -/
def tdDeploy : TaskData :=
  { uuid := "T1", name := t "Deploy", path := t "site.yml:7",
    play := t "Setup", start := 5, host_data := [] }

/-- The state of `cfgFailChange` after the start of `taskDeploy`. -/
def stWithDeploy : CallbackState := start_task cfgFailChange 5 taskDeploy

/-- An `ok` outcome whose payload is changed and also carries an
`exception` field. -/
def evChangedExc : ResultEvent :=
  { task_uuid := "T1", host := some ("H1", t "web1"),
    payload := .taskRes [("changed", .b true), ("exception", .s (t "Traceback\nboom"))] }

/-- An `ok` outcome whose payload is changed and carries a `msg` field
but no `exception` field. -/
def evChangedMsg : ResultEvent :=
  { task_uuid := "T1", host := some ("H1", t "web1"),
    payload := .taskRes [("changed", .b true), ("msg", .s (t "boom"))] }

/-- The `HostData` record that `_finish_task` stores for outcome event
`r` under classified status `status` at time `now`. -/
def newHostRec (r : ResultEvent) (status : String) (now : Nat) : HostData :=
  { uuid := eventHostUuid r, name := eventHostName r, status := status,
    result := r.payload, finish := now }

/-- C3 (counterexample): with the change-as-failure policy enabled, an
`ok` outcome whose changed payload also carries an `exception` field
produces a report entry that is errored, not failed — the claim's
"regardless of the other contents of the payload" does not hold. -/
theorem change_as_failure_counterexample :
    (run cfgFailChange [.taskStart 5 taskDeploy, .outcome 9 "ok" evChangedExc]).toOption.map
      (fun st => (generate_report st).map (fun tc => (tc.failure, tc.error.isSome))) =
      some [(none, true)] := by
  decide

/-- C3 (amended): with the change-as-failure policy enabled, an `ok`
outcome with a changed payload is recorded as `failed` and its report
entry is marked failed (fail-assertion), provided the payload carries no
`exception` field (an `exception` field makes the entry errored instead)
and the owning task's display name does not contain `EXPECTED FAILURE`
(which would turn the failure back into a pass). -/
theorem change_as_failure_amended (st : CallbackState) (now : Nat) (r : ResultEvent)
    (td : TaskData)
    (hfc : st.fail_on_change = "true")
    (hfind : st.task_data.find? (fun td0 => td0.uuid == r.task_uuid) = some td)
    (hmark : textHasSub (t "EXPECTED FAILURE") td.name = false)
    (hch : jTruthy (resGet r.payload.resDict "changed" (.b false)) = true)
    (hexc : resHas r.payload.resDict "exception" = false)
    (hfresh : td.host_data.find? (fun h => h.uuid == eventHostUuid r) = none) :
    finish_task st now "ok" r =
      .ok { st with task_data := updateTask st.task_data r.task_uuid { td with host_data := td.host_data ++ [newHostRec r "failed" now] } } ∧
    ∀ (st2 : CallbackState) (td2 : TaskData),
      (build_test_case st2 td2 (newHostRec r "failed" now)).failure.isSome = true ∧
      (build_test_case st2 td2 (newHostRec r "failed" now)).error = none := by
  constructor
  · simp [finish_task, hfind, hfc, hch, hmark, TaskData.add_host, hfresh, newHostRec]
  · intro st2 td2
    by_cases hm : resHas r.payload.resDict "msg" = true
    · constructor <;> simp [build_test_case, newHostRec, hexc, hm]
    · constructor <;> simp [build_test_case, newHostRec, hexc, hm]

/-- C3 (witness): the amended statement at a concrete changed `ok`
outcome carrying a `msg` field. -/
theorem change_as_failure_amended_witness :
    (build_test_case cfgPlain tdFoo (newHostRec evChangedMsg "failed" 9)).failure.isSome = true :=
  ((change_as_failure_amended stWithDeploy 9 evChangedMsg tdDeploy rfl (by decide)
      (by decide) (by decide) (by decide) (by decide)).2 cfgPlain tdFoo).1

/-! ## C4 / C10: included-outcome concatenation -/

/-- A `HostData` as recorded for an include event: status `included`,
payload the rendered include text. -/
def inclHost (u : String) (n p : Text) (time : Nat) : HostData :=
  { uuid := u, name := n, status := "included", result := .includeText p, finish := time }

theorem replaceHost_append_fresh (l : List HostData) (u : String) (h1 m : HostData)
    (hu : h1.uuid = u) (hl : ∀ x ∈ l, (x.uuid == u) = false) :
    replaceHost (l ++ [h1]) u m = l ++ [m] := by
  induction l with
  | nil => simp [replaceHost, hu]
  | cons x xs ih =>
    have hx := hl x (by simp)
    have ihx := ih (fun y hy => hl y (by simp [hy]))
    simp [replaceHost, hx, ihx]

/-- The fresh-host branch of `add_host`: a new uuid is appended. -/
theorem add_host_fresh (td : TaskData) (h : HostData)
    (hfind : td.host_data.find? (fun h0 => h0.uuid == h.uuid) = none) :
    td.add_host h = .ok { td with host_data := td.host_data ++ [h] } := by
  simp [TaskData.add_host, hfind]

/-- The record stored by the merge branch of `add_host`: the new record,
its payload replaced by the newline-join of the old and new renderings. -/
def mergedHost (prev h : HostData) : HostData :=
  { uuid := h.uuid, name := h.name, status := h.status,
    result := .includeText (prev.result.render ++ nl ++ h.result.render),
    finish := h.finish }

/-- The merge branch of `add_host`: a second `included` outcome replaces
the stored record with the new record carrying the joined payload. -/
theorem add_host_merge (td : TaskData) (h prev : HostData)
    (hfind : td.host_data.find? (fun h0 => h0.uuid == h.uuid) = some prev)
    (hs : h.status = "included") :
    td.add_host h =
      .ok { td with host_data := replaceHost td.host_data h.uuid (mergedHost prev h) } := by
  simp [TaskData.add_host, hfind, hs, mergedHost]

/-- Recording two `included` outcomes for the same host uuid: both
succeed, and the store ends with the records of `td` plus exactly the
merged record, whose payload is the newline-join of the two payloads in
arrival order. -/
theorem add_host_included_twice (td : TaskData) (u : String) (n1 n2 p1 p2 : Text)
    (t1 t2 : Nat) (hfresh : td.host_data.find? (fun h => h.uuid == u) = none) :
    td.add_host (inclHost u n1 p1 t1) =
      .ok { td with host_data := td.host_data ++ [inclHost u n1 p1 t1] } ∧
    TaskData.add_host { td with host_data := td.host_data ++ [inclHost u n1 p1 t1] }
        (inclHost u n2 p2 t2) =
      .ok { td with host_data := td.host_data ++ [inclHost u n2 (p1 ++ nl ++ p2) t2] } := by
  have hall : ∀ x ∈ td.host_data, (x.uuid == u) = false := by
    intro x hx
    have hnx := List.find?_eq_none.mp hfresh x hx
    simpa using hnx
  constructor
  · exact add_host_fresh td (inclHost u n1 p1 t1) hfresh
  · have hfind : (td.host_data ++ [inclHost u n1 p1 t1]).find?
        (fun h0 => h0.uuid == u) = some (inclHost u n1 p1 t1) := by
      rw [List.find?_append, hfresh]
      simp [inclHost]
    have hm := add_host_merge { td with host_data := td.host_data ++ [inclHost u n1 p1 t1] }
      (inclHost u n2 p2 t2) (inclHost u n1 p1 t1) hfind rfl
    rw [hm]
    simp only [show (inclHost u n2 p2 t2).uuid = u from rfl,
      show mergedHost (inclHost u n1 p1 t1) (inclHost u n2 p2 t2) =
        inclHost u n2 (p1 ++ nl ++ p2) t2 from rfl]
    rw [replaceHost_append_fresh td.host_data u (inclHost u n1 p1 t1)
      (inclHost u n2 (p1 ++ nl ++ p2) t2) rfl hall]

/-- C4: for every (task, host) pair, recording two `included` outcomes
yields exactly one `HostData` for that host uuid, whose payload is the
newline-join of the two payloads in arrival order. -/
theorem included_concat (td : TaskData) (u : String) (n1 n2 p1 p2 : Text) (t1 t2 : Nat)
    (hfresh : td.host_data.find? (fun h => h.uuid == u) = none) :
    ∃ td1 td2,
      td.add_host (inclHost u n1 p1 t1) = .ok td1 ∧
      td1.add_host (inclHost u n2 p2 t2) = .ok td2 ∧
      td2.host_data.filter (fun h => h.uuid == u) = [inclHost u n2 (p1 ++ nl ++ p2) t2] := by
  obtain ⟨h1, h2⟩ := add_host_included_twice td u n1 n2 p1 p2 t1 t2 hfresh
  refine ⟨_, _, h1, h2, ?_⟩
  have hall : ∀ x ∈ td.host_data, (x.uuid == u) = false := by
    intro x hx
    have hnx := List.find?_eq_none.mp hfresh x hx
    simpa using hnx
  simp only [List.filter_append]
  rw [List.filter_eq_nil_iff.mpr (by intro a ha; simp [hall a ha])]
  simp [inclHost]

/-- Sample task store for the include concatenation witnesses. -/
def tdEmptyHosts : TaskData :=
  { uuid := "T1", name := t "include tasks", path := t "site.yml:3",
    play := t "Setup", start := 5, host_data := [] }

/-- C4 (witness): the concatenation statement at concrete include
payloads `a.yml` and `b.yml`. -/
theorem included_concat_witness :
    ∃ td1 td2,
      tdEmptyHosts.add_host (inclHost "include" (t "include") (t "a.yml") 7) = .ok td1 ∧
      td1.add_host (inclHost "include" (t "include") (t "b.yml") 9) = .ok td2 ∧
      td2.host_data.filter (fun h => h.uuid == "include") =
        [inclHost "include" (t "include") (t "a.yml" ++ nl ++ t "b.yml") 9] :=
  included_concat tdEmptyHosts "include" (t "include") (t "include")
    (t "a.yml") (t "b.yml") 7 9 (by decide)

/-- C10: the second `included` outcome replaces the stored record with
the new event's record (carrying the concatenated payload), so its
finish timestamp — and the duration of the built report entry — comes
from the latest include event. -/
theorem included_replace_finish (td : TaskData) (u : String) (n1 n2 p1 p2 : Text)
    (t1 t2 : Nat) (hfresh : td.host_data.find? (fun h => h.uuid == u) = none) :
    ∃ td1 td2,
      td.add_host (inclHost u n1 p1 t1) = .ok td1 ∧
      td1.add_host (inclHost u n2 p2 t2) = .ok td2 ∧
      td2.host_data = td.host_data ++ [inclHost u n2 (p1 ++ nl ++ p2) t2] ∧
      (inclHost u n2 (p1 ++ nl ++ p2) t2).finish = t2 ∧
      ∀ st2 : CallbackState,
        (build_test_case st2 td2 (inclHost u n2 (p1 ++ nl ++ p2) t2)).time =
          (t2 : Int) - (td.start : Int) := by
  obtain ⟨h1, h2⟩ := add_host_included_twice td u n1 n2 p1 p2 t1 t2 hfresh
  refine ⟨_, _, h1, h2, rfl, rfl, ?_⟩
  intro st2
  rw [build_test_case_time]
  rfl

/-- C10 (witness): the replacement statement at concrete include events
arriving at times 7 and 9 — the reported duration uses 9. -/
theorem included_replace_finish_witness :
    ∃ td1 td2,
      tdEmptyHosts.add_host (inclHost "include" (t "include") (t "c.yml") 7) = .ok td1 ∧
      td1.add_host (inclHost "include" (t "include") (t "d.yml") 9) = .ok td2 ∧
      td2.host_data = tdEmptyHosts.host_data ++
        [inclHost "include" (t "include") (t "c.yml" ++ nl ++ t "d.yml") 9] ∧
      (inclHost "include" (t "include") (t "c.yml" ++ nl ++ t "d.yml") 9).finish = 9 ∧
      ∀ st2 : CallbackState,
        (build_test_case st2 td2
          (inclHost "include" (t "include") (t "c.yml" ++ nl ++ t "d.yml") 9)).time =
          (9 : Int) - (tdEmptyHosts.start : Int) :=
  included_replace_finish tdEmptyHosts "include" (t "include") (t "include")
    (t "c.yml") (t "d.yml") 7 9 (by decide)

/-! ## C5: the duplicate-callback fault -/

/-- C5: `add_host` raises exactly when the host uuid already holds a
record and the new outcome's status is not `included` — and this is the
only failing condition. -/
theorem duplicate_callback_iff (td : TaskData) (h : HostData) :
    (∃ e, td.add_host h = .error e) ↔
      ((∃ h0 ∈ td.host_data, h0.uuid = h.uuid) ∧ h.status ≠ "included") := by
  unfold TaskData.add_host
  cases hfind : td.host_data.find? (fun h0 => h0.uuid == h.uuid) with
  | none =>
    simp only []
    constructor
    · rintro ⟨e, he⟩
      simp at he
    · rintro ⟨⟨h0, hm, hu⟩, _⟩
      have hnx := List.find?_eq_none.mp hfind h0 hm
      simp [hu] at hnx
  | some prev =>
    by_cases hs : h.status = "included"
    · simp [hs]
    · have hsb : (h.status == "included") = false := by
        simpa using hs
      simp only [hsb, Bool.false_eq_true, if_neg, if_false]
      constructor
      · intro _
        refine ⟨⟨prev, List.mem_of_find?_eq_some hfind, ?_⟩, hs⟩
        have hp := List.find?_some hfind
        simpa using hp
      · intro _
        exact ⟨_, rfl⟩

/-! ## C6: task-start idempotence -/

/-- The `TaskData` record created by `_start_task`. -/
def newTaskRec (task : Task) (play : Text) (now : Nat) : TaskData :=
  { uuid := task.uuid, name := taskDisplayName task, path := task.path,
    play := play, start := now, host_data := [] }

/-- C6: `_start_task` is idempotent — a second start event with the same
task uuid leaves the store untouched, and the store holds exactly one
record for that uuid, built from the first call. -/
theorem start_task_idempotent (st : CallbackState) (n1 n2 : Nat) (task task' : Task)
    (huuid : task'.uuid = task.uuid) :
    start_task (start_task st n1 task) n2 task' = start_task st n1 task ∧
    (task.uuid ∉ taskUuids st →
      (start_task st n1 task).task_data.filter (fun td => td.uuid == task.uuid) =
        [newTaskRec task st.play_name n1]) := by
  constructor
  · by_cases hc : st.task_data.any (fun td => td.uuid == task.uuid) = true
    · have h1 : start_task st n1 task = st := by
        simp [start_task, hc]
      rw [h1]
      simp [start_task, huuid, hc]
    · have hc' : st.task_data.any (fun td => td.uuid == task.uuid) = false := by
        simpa using hc
      simp [start_task, hc', huuid, List.any_append]
  · intro hmem
    have hc : st.task_data.any (fun td => td.uuid == task.uuid) = false := by
      rw [List.any_eq_false]
      intro td htd
      intro hbeq
      exact hmem (List.mem_map.mpr ⟨td, htd, by simpa using hbeq⟩)
    have hnil : st.task_data.filter (fun td => td.uuid == task.uuid) = [] := by
      rw [List.filter_eq_nil_iff]
      intro td htd
      have := List.any_eq_false.mp hc td htd
      simpa using this
    simp [start_task, hc, List.filter_append, hnil, newTaskRec]

/-- C6 (witness): starting `taskDeploy` twice in the empty store keeps
exactly the record of the first call. -/
theorem start_task_idempotent_witness :
    start_task (start_task cfgFailChange 5 taskDeploy) 8 taskDeploy =
      start_task cfgFailChange 5 taskDeploy ∧
    (start_task cfgFailChange 5 taskDeploy).task_data.filter
        (fun td => td.uuid == taskDeploy.uuid) =
      [newTaskRec taskDeploy cfgFailChange.play_name 5] :=
  ⟨(start_task_idempotent cfgFailChange 5 8 taskDeploy taskDeploy rfl).1,
   (start_task_idempotent cfgFailChange 5 8 taskDeploy taskDeploy rfl).2 (by decide)⟩

/-! ## C9: the unknown-task fault -/

/-- C9: an outcome event for a task uuid with no prior start event is a
fatal `KeyError`: `_finish_task` raises before any `HostData` is
created, and the whole run aborts with that fault. -/
theorem unknown_task_fatal (st : CallbackState) (now : Nat) (status : String)
    (r : ResultEvent) (es : List Event)
    (hnone : st.task_data.find? (fun td => td.uuid == r.task_uuid) = none) :
    finish_task st now status r = .error (t "KeyError: " ++ t r.task_uuid) ∧
    run st (Event.outcome now status r :: es) = .error (t "KeyError: " ++ t r.task_uuid) := by
  have h1 : finish_task st now status r = .error (t "KeyError: " ++ t r.task_uuid) := by
    simp [finish_task, hnone]
  exact ⟨h1, by simp [run, step, h1]⟩

/-- An outcome event referencing the never-started task `T9`. -/
def evUnknown : ResultEvent :=
  { task_uuid := "T9", host := some ("H1", t "web1"), payload := .taskRes [] }

/-- C9 (witness): an outcome for the never-started task `T9` aborts the
run from the empty store. -/
theorem unknown_task_fatal_witness :
    finish_task cfgPlain 9 "ok" evUnknown = .error (t "KeyError: " ++ t "T9") :=
  (unknown_task_fatal cfgPlain 9 "ok" evUnknown [] (by decide)).1

/-! ## C8: the EXPECTED FAILURE marker -/

/-- C8: a `failed` outcome for a task whose display name contains the
marker `EXPECTED FAILURE` is recorded with status `ok`, and its report
entry carries no failure, error, or skipped marker. -/
theorem expected_failure_pass (st : CallbackState) (now : Nat) (r : ResultEvent)
    (td : TaskData)
    (hfind : st.task_data.find? (fun td0 => td0.uuid == r.task_uuid) = some td)
    (hmark : textHasSub (t "EXPECTED FAILURE") td.name = true)
    (hfresh : td.host_data.find? (fun h => h.uuid == eventHostUuid r) = none) :
    finish_task st now "failed" r =
      .ok { st with task_data := updateTask st.task_data r.task_uuid { td with host_data := td.host_data ++ [newHostRec r "ok" now] } } ∧
    ∀ (st2 : CallbackState) (td2 : TaskData),
      (build_test_case st2 td2 (newHostRec r "ok" now)).failure = none ∧
      (build_test_case st2 td2 (newHostRec r "ok" now)).error = none ∧
      (build_test_case st2 td2 (newHostRec r "ok" now)).skipped = none := by
  constructor
  · simp [finish_task, hfind, hmark, TaskData.add_host, hfresh, newHostRec]
  · intro st2 td2
    refine ⟨?_, ?_, ?_⟩ <;> simp [build_test_case, newHostRec]

/-- A task whose display name contains the `EXPECTED FAILURE` marker. -/
def taskExpFail : Task :=
  { uuid := "T2", name := t "Deploy (EXPECTED FAILURE)", path := t "site.yml:9",
    no_log := true, args := [] }

/-- The `TaskData` record created for `taskExpFail` at time 5. -/
def tdExpFail : TaskData :=
  { uuid := "T2", name := t "Deploy (EXPECTED FAILURE)", path := t "site.yml:9",
    play := t "Setup", start := 5, host_data := [] }

/-- The state of `cfgPlain` after the start of `taskExpFail`. -/
def stWithExpFail : CallbackState := start_task cfgPlain 5 taskExpFail

/-- A `failed` outcome for task `T2` with payload `{"msg": "boom"}`. -/
def evBoom : ResultEvent :=
  { task_uuid := "T2", host := some ("H1", t "web1"), payload := .taskRes [("msg", .s (t "boom"))] }

/-- C8 (witness): the concrete `Deploy (EXPECTED FAILURE)` scenario —
the recorded entry carries no failure marker. -/
theorem expected_failure_pass_witness :
    (build_test_case cfgPlain tdFoo (newHostRec evBoom "ok" 9)).failure = none :=
  ((expected_failure_pass stWithExpFail 9 evBoom tdExpFail (by decide) (by decide)
      (by decide)).2 cfgPlain tdFoo).1

/-! ## C7: one report entry per pair, in first-seen order

The event-trace machinery: projections of an event list and of the
aggregator state used to characterise the final report. -/

/-- Boolean membership among uuids. -/
def hasUuid (l : List String) (u : String) : Bool := l.any (fun x => x == u)

/-- The (task uuid, host uuid) pairs of the outcome events, in order. -/
def ePairs : List Event → List (String × String)
  | [] => []
  | Event.outcome _ _ r :: es => (r.task_uuid, eventHostUuid r) :: ePairs es
  | _ :: es => ePairs es

/-- Every outcome event refers to a task already started (given the
already-known uuids); mirrors how `taskUuids` evolves along the run. -/
def wellStarted : List Event → List String → Bool
  | [], _ => true
  | Event.taskStart _ task :: es, known =>
      wellStarted es (if hasUuid known task.uuid then known else known ++ [task.uuid])
  | Event.outcome _ _ r :: es, known => hasUuid known r.task_uuid && wellStarted es known
  | Event.playStart _ :: es, known => wellStarted es known

/-- The uuids of the tasks first started by the events, in first-seen
order (uuids in `known` excluded). -/
def newTasks : List Event → List String → List String
  | [], _ => []
  | Event.taskStart _ task :: es, known =>
      if hasUuid known task.uuid then newTasks es known
      else task.uuid :: newTasks es (known ++ [task.uuid])
  | _ :: es, known => newTasks es known

/-- The host uuids recorded under task `tid`, in insertion order. -/
def hostsOf (l : List TaskData) (tid : String) : List String :=
  match l.find? (fun td => td.uuid == tid) with
  | some td => td.host_data.map (fun h => h.uuid)
  | none => []

/-- `hostsOf` on the aggregator state. -/
def hostsAt (st : CallbackState) (tid : String) : List String :=
  hostsOf st.task_data tid

/-- The host uuids of the outcome events for task `tid`, in order. -/
def pairsFor (tid : String) (es : List Event) : List String :=
  ((ePairs es).filter (fun p => p.1 == tid)).map (fun p => p.2)

theorem hasUuid_any (l : List TaskData) (u : String) :
    hasUuid (l.map (fun td => td.uuid)) u = l.any (fun td => td.uuid == u) := by
  induction l with
  | nil => rfl
  | cons x xs ih => simp [hasUuid, List.any_cons] at ih ⊢; rw [ih]

theorem hasUuid_eq_false_iff (l : List String) (u : String) :
    hasUuid l u = false ↔ u ∉ l := by
  unfold hasUuid
  rw [List.any_eq_false]
  constructor
  · intro h hm
    exact h u hm (by simp)
  · intro h x hx hbeq
    exact h (by rwa [show x = u by simpa using hbeq] at hx)

theorem hasUuid_eq_true_iff (l : List String) (u : String) :
    hasUuid l u = true ↔ u ∈ l := by
  unfold hasUuid
  rw [List.any_eq_true]
  constructor
  · rintro ⟨x, hx, hbeq⟩
    rwa [show x = u by simpa using hbeq] at hx
  · intro h
    exact ⟨u, h, by simp⟩

/-- The (task uuid, host uuid) pairs of a task store. -/
def pairsOf (l : List TaskData) : List (String × String) :=
  l.flatMap (fun td => td.host_data.map (fun h => (td.uuid, h.uuid)))

theorem reportPairs_eq (st : CallbackState) : reportPairs st = pairsOf st.task_data := rfl

theorem updateTask_map_uuid (l : List TaskData) (u : String) (td td' : TaskData)
    (hfind : l.find? (fun y => y.uuid == u) = some td) (htd' : td'.uuid = td.uuid) :
    (updateTask l u td').map (fun y => y.uuid) = l.map (fun y => y.uuid) := by
  induction l with
  | nil => rfl
  | cons x xs ih =>
    rw [List.find?_cons] at hfind
    by_cases hx : (x.uuid == u) = true
    · simp only [hx] at hfind
      have hxtd : x = td := by injection hfind
      subst hxtd
      simp [updateTask, hx, htd']
    · have hx' : (x.uuid == u) = false := by simpa using hx
      simp only [hx'] at hfind
      simp [updateTask, hx', ih hfind]

theorem find?_updateTask (l : List TaskData) (u : String) (td td' : TaskData) (tid : String)
    (hfind : l.find? (fun y => y.uuid == u) = some td) (htd' : td'.uuid = td.uuid) :
    (updateTask l u td').find? (fun y => y.uuid == tid) =
      if u = tid then some td' else l.find? (fun y => y.uuid == tid) := by
  induction l with
  | nil => simp [updateTask] at hfind
  | cons x xs ih =>
    rw [List.find?_cons] at hfind
    by_cases hx : (x.uuid == u) = true
    · simp only [hx] at hfind
      have hxtd : x = td := by injection hfind
      have hxu : x.uuid = u := by simpa using hx
      subst hxtd
      simp only [updateTask, hx, if_pos, List.find?_cons]
      by_cases htid : u = tid
      · subst htid
        have hcond : (td'.uuid == u) = true := by simp [htd', hxu]
        simp [hcond]
      · have hcond : (td'.uuid == tid) = false := by
          rw [htd', hxu]
          simpa using htid
        have hcond2 : (x.uuid == tid) = false := by
          rw [hxu]
          simpa using htid
        simp [hcond, hcond2, htid]
    · have hx' : (x.uuid == u) = false := by simpa using hx
      simp only [hx'] at hfind
      simp only [updateTask, hx', Bool.false_eq_true, if_false, List.find?_cons]
      by_cases h2 : (x.uuid == tid) = true
      · have htid : u ≠ tid := by
          intro hE
          subst hE
          rw [h2] at hx'
          cases hx'
        simp [h2, htid]
      · have h2' : (x.uuid == tid) = false := by simpa using h2
        simp [h2', ih hfind]

theorem hostsOf_updateTask (l : List TaskData) (u : String) (td : TaskData) (hd : HostData)
    (tid : String) (hfind : l.find? (fun y => y.uuid == u) = some td) :
    hostsOf (updateTask l u { td with host_data := td.host_data ++ [hd] }) tid =
      (if u = tid then hostsOf l tid ++ [hd.uuid] else hostsOf l tid) := by
  unfold hostsOf
  rw [find?_updateTask l u td ({ td with host_data := td.host_data ++ [hd] }) tid hfind rfl]
  by_cases h : u = tid
  · subst h
    simp [hfind]
  · simp [h]

theorem pairsOf_updateTask_perm (l : List TaskData) (u : String) (td : TaskData)
    (hd : HostData) (hfind : l.find? (fun y => y.uuid == u) = some td) :
    (pairsOf (updateTask l u { td with host_data := td.host_data ++ [hd] })).Perm
      (pairsOf l ++ [(u, hd.uuid)]) := by
  induction l with
  | nil => simp [updateTask] at hfind
  | cons x xs ih =>
    rw [List.find?_cons] at hfind
    by_cases hx : (x.uuid == u) = true
    · simp only [hx] at hfind
      have hxtd : x = td := by injection hfind
      have hxu : x.uuid = u := by simpa using hx
      subst hxtd
      have hstep : pairsOf (updateTask (x :: xs) u { x with host_data := x.host_data ++ [hd] }) =
          x.host_data.map (fun h => (x.uuid, h.uuid)) ++ ((x.uuid, hd.uuid) :: pairsOf xs) := by
        simp [updateTask, hx, pairsOf]
      have hcons : pairsOf (x :: xs) =
          x.host_data.map (fun h => (x.uuid, h.uuid)) ++ pairsOf xs := by
        simp [pairsOf]
      rw [hstep, hcons, hxu, List.append_assoc]
      refine List.Perm.append_left _ ?_
      rw [← List.singleton_append]
      exact List.perm_append_comm
    · have hx' : (x.uuid == u) = false := by simpa using hx
      simp only [hx'] at hfind
      have hstep : pairsOf (updateTask (x :: xs) u { td with host_data := td.host_data ++ [hd] }) =
          x.host_data.map (fun h => (x.uuid, h.uuid)) ++
            pairsOf (updateTask xs u { td with host_data := td.host_data ++ [hd] }) := by
        simp [updateTask, hx', pairsOf]
      have hcons : pairsOf (x :: xs) =
          x.host_data.map (fun h => (x.uuid, h.uuid)) ++ pairsOf xs := by
        simp [pairsOf]
      rw [hstep, hcons, List.append_assoc]
      exact List.Perm.append_left _ (ih hfind)

/-- The status stored by `_finish_task` after the fail-on-change and
EXPECTED-FAILURE reclassification rules. -/
def classifiedStatus (st : CallbackState) (status : String) (r : ResultEvent)
    (td : TaskData) : String :=
  let status1 :=
    if st.fail_on_change == "true" && status == "ok" &&
       jTruthy (resGet r.payload.resDict "changed" (.b false)) then "failed"
    else status
  if status1 == "failed" && textHasSub (t "EXPECTED FAILURE") td.name then "ok"
  else status1

/-- `_finish_task` on a started task and a fresh (task, host) pair
succeeds and appends exactly one `HostData` to that task. -/
theorem finish_task_ok (st : CallbackState) (now : Nat) (status : String) (r : ResultEvent)
    (td : TaskData)
    (hfind : st.task_data.find? (fun td0 => td0.uuid == r.task_uuid) = some td)
    (hfresh : td.host_data.find? (fun h => h.uuid == eventHostUuid r) = none) :
    finish_task st now status r =
      .ok { st with task_data := updateTask st.task_data r.task_uuid { td with host_data := td.host_data ++ [newHostRec r (classifiedStatus st status r td) now] } } := by
  simp [finish_task, hfind, TaskData.add_host, hfresh, newHostRec, classifiedStatus]

theorem run_cons_ok (st : CallbackState) (e : Event) (st1 : CallbackState) (es : List Event)
    (h : step st e = .ok st1) : run st (e :: es) = run st1 es := by
  simp [run, h]

theorem start_task_known (st : CallbackState) (now : Nat) (task : Task)
    (hc : st.task_data.any (fun td => td.uuid == task.uuid) = true) :
    start_task st now task = st := by
  simp [start_task, hc]

theorem start_task_fresh (st : CallbackState) (now : Nat) (task : Task)
    (hc : st.task_data.any (fun td => td.uuid == task.uuid) = false) :
    start_task st now task =
      { st with task_data := st.task_data ++ [newTaskRec task st.play_name now] } := by
  simp [start_task, hc, newTaskRec]

theorem hostsOf_append_emptyrec (l : List TaskData) (rec : TaskData)
    (hrec : rec.host_data = []) (tid : String) :
    hostsOf (l ++ [rec]) tid = hostsOf l tid := by
  unfold hostsOf
  rw [List.find?_append]
  cases hf : l.find? (fun td => td.uuid == tid) with
  | some td => simp
  | none =>
    by_cases hr : (rec.uuid == tid) = true
    · simp [List.find?_cons, hr, hrec]
    · have hr' : (rec.uuid == tid) = false := by simpa using hr
      simp [List.find?_cons, hr']

theorem hasUuid_taskUuids (st : CallbackState) (u : String) :
    hasUuid (taskUuids st) u = st.task_data.any (fun td => td.uuid == u) :=
  hasUuid_any st.task_data u

/-- The run characterisation: on a well-started event sequence with
unique (task, host) pairs the run succeeds, tasks appear in first-seen
order, each task's hosts in arrival order, and the pairs of the final
store are a permutation of the event pairs. -/
theorem run_characterization (es : List Event) : ∀ (st : CallbackState),
    (taskUuids st).Nodup →
    wellStarted es (taskUuids st) = true →
    (reportPairs st ++ ePairs es).Nodup →
    ∃ st', run st es = .ok st' ∧
      taskUuids st' = taskUuids st ++ newTasks es (taskUuids st) ∧
      (∀ tid, hostsAt st' tid = hostsAt st tid ++ pairsFor tid es) ∧
      (reportPairs st').Perm (reportPairs st ++ ePairs es) := by
  induction es with
  | nil =>
    intro st hnd hws hpairs
    refine ⟨st, rfl, by simp [newTasks], fun tid => by simp [pairsFor, ePairs], ?_⟩
    simp [ePairs]
  | cons e es ih =>
    intro st hnd hws hpairs
    cases e with
    | playStart n =>
      have hstep : step st (Event.playStart n) = .ok { st with play_name := n } := rfl
      obtain ⟨st', hrun, hu, hh, hp⟩ := ih { st with play_name := n } hnd hws hpairs
      refine ⟨st', ?_, hu, hh, hp⟩
      rw [run_cons_ok st _ _ es hstep]
      exact hrun
    | taskStart now task =>
      by_cases hc : st.task_data.any (fun td => td.uuid == task.uuid) = true
      · have hstep : step st (Event.taskStart now task) = .ok st := by
          simp [step, start_task_known st now task hc]
        have hku : hasUuid (taskUuids st) task.uuid = true := by
          rw [hasUuid_taskUuids]
          exact hc
        have hws' : wellStarted es (taskUuids st) = true := by
          simpa [wellStarted, hku] using hws
        obtain ⟨st', hrun, hu, hh, hp⟩ := ih st hnd hws' hpairs
        refine ⟨st', ?_, ?_, ?_, hp⟩
        · rw [run_cons_ok st _ st es hstep]
          exact hrun
        · rw [hu]
          simp [newTasks, hku]
        · exact hh
      · have hc' : st.task_data.any (fun td => td.uuid == task.uuid) = false := by
          simpa using hc
        have hku : hasUuid (taskUuids st) task.uuid = false := by
          rw [hasUuid_taskUuids]
          exact hc'
        have hmem : task.uuid ∉ taskUuids st := (hasUuid_eq_false_iff _ _).mp hku
        set st1 : CallbackState := { st with task_data := st.task_data ++ [newTaskRec task st.play_name now] } with hst1
        have hstep : step st (Event.taskStart now task) = .ok st1 := by
          simp [step, start_task_fresh st now task hc', hst1]
        have huu : taskUuids st1 = taskUuids st ++ [task.uuid] := by
          simp [taskUuids, hst1, newTaskRec]
        have hnd1 : (taskUuids st1).Nodup := by
          rw [huu]
          refine List.Nodup.append hnd (by simp) ?_
          intro a ha hb
          simp at hb
          subst hb
          exact hmem ha
        have hws1 : wellStarted es (taskUuids st1) = true := by
          rw [huu]
          simpa [wellStarted, hku] using hws
        have hrp1 : reportPairs st1 = reportPairs st := by
          simp [reportPairs_eq, pairsOf, hst1, List.flatMap_append, newTaskRec]
        have hpairs1 : (reportPairs st1 ++ ePairs es).Nodup := by
          rw [hrp1]
          exact hpairs
        obtain ⟨st', hrun, hu, hh, hp⟩ := ih st1 hnd1 hws1 hpairs1
        refine ⟨st', ?_, ?_, ?_, ?_⟩
        · rw [run_cons_ok st _ st1 es hstep]
          exact hrun
        · rw [hu, huu]
          have hnew : newTasks (Event.taskStart now task :: es) (taskUuids st) =
              task.uuid :: newTasks es (taskUuids st ++ [task.uuid]) := by
            simp [newTasks, hku]
          rw [hnew, List.append_assoc, List.singleton_append]
        · intro tid
          rw [hh tid]
          have hsame : hostsAt st1 tid = hostsAt st tid := by
            unfold hostsAt
            rw [hst1]
            exact hostsOf_append_emptyrec st.task_data (newTaskRec task st.play_name now) rfl tid
          rw [hsame]
          rfl
        · rw [hrp1] at hp
          exact hp
    | outcome now status r =>
      simp only [wellStarted, Bool.and_eq_true] at hws
      obtain ⟨hku, hws'⟩ := hws
      have hfind_ex : ∃ td, st.task_data.find? (fun td0 => td0.uuid == r.task_uuid) = some td := by
        cases hf : st.task_data.find? (fun td0 => td0.uuid == r.task_uuid) with
        | some td => exact ⟨td, rfl⟩
        | none =>
          exfalso
          have hmem := (hasUuid_eq_true_iff _ _).mp hku
          obtain ⟨td, htd, hun⟩ := List.mem_map.mp hmem
          have hnone := List.find?_eq_none.mp hf td htd
          simp [hun] at hnone
      obtain ⟨td, hfind⟩ := hfind_ex
      have hePairs : ePairs (Event.outcome now status r :: es) =
          (r.task_uuid, eventHostUuid r) :: ePairs es := rfl
      rw [hePairs] at hpairs
      have hnotin : (r.task_uuid, eventHostUuid r) ∉ reportPairs st := by
        intro hin
        have hnd_ap := List.nodup_append.mp hpairs
        exact hnd_ap.2.2 hin (by simp)
      have hfresh : td.host_data.find? (fun h => h.uuid == eventHostUuid r) = none := by
        cases hf : td.host_data.find? (fun h => h.uuid == eventHostUuid r) with
        | none => rfl
        | some h0 =>
          exfalso
          apply hnotin
          have hm0 := List.mem_of_find?_eq_some hf
          have hu0 : h0.uuid = eventHostUuid r := by simpa using List.find?_some hf
          have htdu : td.uuid = r.task_uuid := by simpa using List.find?_some hfind
          rw [reportPairs_eq]
          unfold pairsOf
          refine List.mem_flatMap.mpr ⟨td, List.mem_of_find?_eq_some hfind, ?_⟩
          exact List.mem_map.mpr ⟨h0, hm0, by rw [hu0, htdu]⟩
      have hstep := finish_task_ok st now status r td hfind hfresh
      set hd : HostData := newHostRec r (classifiedStatus st status r td) now with hhd
      set st1 : CallbackState := { st with task_data := updateTask st.task_data r.task_uuid { td with host_data := td.host_data ++ [hd] } } with hst1
      have hduuid : hd.uuid = eventHostUuid r := rfl
      have hu1 : taskUuids st1 = taskUuids st := by
        unfold taskUuids
        rw [hst1]
        exact updateTask_map_uuid st.task_data r.task_uuid td _ hfind rfl
      have hh1 : ∀ tid, hostsAt st1 tid =
          (if r.task_uuid = tid then hostsAt st tid ++ [hd.uuid] else hostsAt st tid) := by
        intro tid
        unfold hostsAt
        rw [hst1]
        exact hostsOf_updateTask st.task_data r.task_uuid td hd tid hfind
      have hp1 : (reportPairs st1).Perm (reportPairs st ++ [(r.task_uuid, hd.uuid)]) := by
        rw [reportPairs_eq st1, hst1]
        exact pairsOf_updateTask_perm st.task_data r.task_uuid td hd hfind
      have hnd1 : (taskUuids st1).Nodup := by
        rw [hu1]
        exact hnd
      have hws1 : wellStarted es (taskUuids st1) = true := by
        rw [hu1]
        exact hws'
      have hpairs1 : (reportPairs st1 ++ ePairs es).Nodup := by
        have hperm := hp1.append_right (ePairs es)
        refine hperm.symm.nodup ?_
        rw [List.append_assoc, List.singleton_append]
        rw [hduuid]
        exact hpairs
      obtain ⟨st', hrun, hu, hh, hp⟩ := ih st1 hnd1 hws1 hpairs1
      refine ⟨st', ?_, ?_, ?_, ?_⟩
      · refine Eq.trans (run_cons_ok st _ st1 es ?_) hrun
        simp [step, hstep, hst1]
      · rw [hu, hu1]
        simp [newTasks]
      · intro tid
        rw [hh tid, hh1 tid]
        by_cases htid : r.task_uuid = tid
        · subst htid
          rw [if_pos rfl]
          have hpf : pairsFor r.task_uuid (Event.outcome now status r :: es) =
              eventHostUuid r :: pairsFor r.task_uuid es := by
            simp [pairsFor, ePairs]
          rw [hpf, hduuid, List.append_assoc, List.singleton_append]
        · rw [if_neg htid]
          have hb : (r.task_uuid == tid) = false := by simpa using htid
          have hpf : pairsFor tid (Event.outcome now status r :: es) = pairsFor tid es := by
            simp [pairsFor, ePairs, hb]
          rw [hpf]
      · refine hp.trans ?_
        have h2 := hp1.append_right (ePairs es)
        refine h2.trans ?_
        rw [List.append_assoc, List.singleton_append, hduuid, hePairs]

theorem flatMap_congr_mem {α β : Type} (l : List α) (f g : α → List β)
    (h : ∀ a ∈ l, f a = g a) : l.flatMap f = l.flatMap g := by
  induction l with
  | nil => rfl
  | cons x xs ih =>
    simp only [List.flatMap_cons, h x (by simp), ih (fun a ha => h a (by simp [ha]))]

theorem pairsOf_eq_flatMap (l : List TaskData)
    (hnd : (l.map (fun td => td.uuid)).Nodup) :
    pairsOf l = (l.map (fun td => td.uuid)).flatMap
      (fun tid => (hostsOf l tid).map (fun h => (tid, h))) := by
  induction l with
  | nil => rfl
  | cons x xs ih =>
    rw [List.map_cons] at hnd ⊢
    rw [List.flatMap_cons]
    obtain ⟨hx, hxs⟩ := List.nodup_cons.mp hnd
    have hhead : hostsOf (x :: xs) x.uuid = x.host_data.map (fun h => h.uuid) := by
      unfold hostsOf
      simp [List.find?_cons]
    have htail : (xs.map (fun td => td.uuid)).flatMap
        (fun tid => (hostsOf (x :: xs) tid).map (fun h => (tid, h))) =
        (xs.map (fun td => td.uuid)).flatMap
        (fun tid => (hostsOf xs tid).map (fun h => (tid, h))) := by
      refine flatMap_congr_mem _ _ _ ?_
      intro tid htid
      have hne : (x.uuid == tid) = false := by
        simp only [beq_eq_false_iff_ne]
        intro hE
        exact hx (hE ▸ htid)
      unfold hostsOf
      simp [List.find?_cons, hne]
    rw [htail, ← ih hxs, hhead]
    unfold pairsOf
    rw [List.flatMap_cons, List.map_map]
    rfl

theorem filter_pair_map (tid : String) (ps : List (String × String)) :
    ((ps.filter (fun p => p.1 == tid)).map (fun p => p.2)).map (fun h => (tid, h)) =
      ps.filter (fun p => p.1 == tid) := by
  induction ps with
  | nil => rfl
  | cons q qs ih =>
    by_cases hq : (q.1 == tid) = true
    · have hq' : q.1 = tid := by simpa using hq
      rw [List.filter_cons, if_pos hq, List.map_cons, List.map_cons, ih]
      rw [← hq']
    · have hq' : (q.1 == tid) = false := by simpa using hq
      simp [List.filter_cons, hq', ih]

theorem pairsFor_map (tid : String) (es : List Event) :
    (pairsFor tid es).map (fun h => (tid, h)) = (ePairs es).filter (fun p => p.1 == tid) :=
  filter_pair_map tid (ePairs es)

theorem generate_report_length (st : CallbackState) :
    (generate_report st).length = (reportPairs st).length := by
  unfold generate_report reportPairs
  rw [List.length_flatMap, List.length_flatMap]
  apply congrArg List.sum
  apply List.map_congr_left
  intro td htd
  simp

theorem newTasks_nodup (es : List Event) : ∀ known : List String,
    known.Nodup → (known ++ newTasks es known).Nodup := by
  induction es with
  | nil =>
    intro known h
    simpa [newTasks] using h
  | cons e es ih =>
    intro known h
    cases e with
    | playStart n => simpa [newTasks] using ih known h
    | outcome now status r => simpa [newTasks] using ih known h
    | taskStart now task =>
      by_cases hk : hasUuid known task.uuid = true
      · simpa [newTasks, hk] using ih known h
      · have hk' : hasUuid known task.uuid = false := by simpa using hk
        have hmem : task.uuid ∉ known := (hasUuid_eq_false_iff _ _).mp hk'
        have hnd' : (known ++ [task.uuid]).Nodup := by
          refine List.Nodup.append h (by simp) ?_
          intro a ha hb
          simp at hb
          subst hb
          exact hmem ha
        have hthis := ih (known ++ [task.uuid]) hnd'
        have hnew : newTasks (Event.taskStart now task :: es) known =
            task.uuid :: newTasks es (known ++ [task.uuid]) := by
          simp [newTasks, hk']
        rw [hnew, ← List.singleton_append, ← List.append_assoc]
        exact hthis

/-- The aggregator state as `__init__` leaves it: the two lowercased
environment options, `_play_name = None` (which renders as the text
`None`), and an empty task store. -/
def initState (task_class fail_on_change : String) : CallbackState :=
  { task_class := task_class, fail_on_change := fail_on_change,
    play_name := t "None", task_data := [] }

/-- C7: for every sequence of start-then-outcome events with unique
(task id, host id) pairs, the run succeeds and the generated report has
exactly one entry per pair — the report's (task, host) pairs are exactly
the event pairs, with no duplicates, grouped by first-seen task order
and, within a task, ordered by host record creation (arrival) order. -/
theorem report_unique_pairs_ordered (task_class fail_on_change : String)
    (es : List Event) (hws : wellStarted es [] = true) (hnd : (ePairs es).Nodup) :
    ∃ st', run (initState task_class fail_on_change) es = .ok st' ∧
      reportPairs st' = (newTasks es []).flatMap
        (fun tid => (ePairs es).filter (fun p => p.1 == tid)) ∧
      (generate_report st').length = (ePairs es).length ∧
      (reportPairs st').Nodup ∧
      (∀ p, p ∈ reportPairs st' ↔ p ∈ ePairs es) := by
  have h0u : taskUuids (initState task_class fail_on_change) = [] := rfl
  have h0p : reportPairs (initState task_class fail_on_change) = [] := rfl
  obtain ⟨st', hrun, hu, hh, hp⟩ := run_characterization es (initState task_class fail_on_change)
    (by rw [h0u]; exact List.nodup_nil)
    (by rw [h0u]; exact hws)
    (by rw [h0p]; simpa using hnd)
  have hperm : (reportPairs st').Perm (ePairs es) := by
    simpa using hp
  refine ⟨st', hrun, ?_, ?_, ?_, ?_⟩
  · have hndu : (taskUuids st').Nodup := by
      rw [hu, h0u]
      simpa using newTasks_nodup es [] List.nodup_nil
    have h1 : reportPairs st' = (taskUuids st').flatMap
        (fun tid => (hostsAt st' tid).map (fun h => (tid, h))) := by
      rw [reportPairs_eq]
      exact pairsOf_eq_flatMap st'.task_data hndu
    rw [h1, hu, h0u]
    simp only [List.nil_append]
    refine flatMap_congr_mem _ _ _ ?_
    intro tid htid
    rw [hh tid]
    have h0h : hostsAt (initState task_class fail_on_change) tid = [] := rfl
    rw [h0h, List.nil_append]
    exact pairsFor_map tid es
  · rw [generate_report_length]
    exact hperm.length_eq
  · exact hperm.symm.nodup hnd
  · intro p
    exact hperm.mem_iff

/-- An include outcome for task `T1` (no concrete host: the sentinel
host id `include` is used). -/
def evInclT1 : ResultEvent :=
  { task_uuid := "T1", host := none, payload := .includeText (t "a.yml") }

/-- A demo event sequence: two tasks, three outcomes with unique
(task, host) pairs, the third outcome returning to the first task. -/
def demoEvents : List Event :=
  [Event.playStart (t "Setup"),
   Event.taskStart 5 taskDeploy,
   Event.taskStart 6 taskExpFail,
   Event.outcome 9 "ok" evChangedMsg,
   Event.outcome 10 "included" evInclT1,
   Event.outcome 11 "failed" evBoom]

/-- C7 (witness): the characterisation at the concrete demo sequence. -/
theorem report_unique_pairs_ordered_witness :
    ∃ st', run (initState "false" "false") demoEvents = .ok st' ∧
      reportPairs st' = (newTasks demoEvents []).flatMap
        (fun tid => (ePairs demoEvents).filter (fun p => p.1 == tid)) ∧
      (generate_report st').length = (ePairs demoEvents).length ∧
      (reportPairs st').Nodup ∧
      (∀ p, p ∈ reportPairs st' ↔ p ∈ ePairs demoEvents) :=
  report_unique_pairs_ordered "false" "false" demoEvents (by decide) (by decide)

end JUnit
